import Mathlib

/-!
Verification of the heuristic product-record extraction engine of
`scraper_extended.py` (multi-site e-commerce scraper).

The Python source is shallowly embedded: DOM queries performed by
BeautifulSoup (`div.get_text()`, `div.find(...)`) are modelled as fields of a
`Block` structure holding the query results, regular-expression searches are
modelled as executable character-list scanners with Python's leftmost /
greedy semantics, Python floats are modelled as exact rationals ℚ (the
decimal strings handled here are parsed exactly; binary rounding is
irrelevant to the stated range properties), and the per-block
`try/except: continue` is modelled by running the block body in
`Except String` and catching any error in the page-scan loop.
-/

/-! ### Character utilities -/

/-- Whitespace as matched by Python's `str.strip`, `\s` (ASCII range):
space, tab, newline, carriage return, vertical tab, form feed. -/
def isWs (c : Char) : Bool :=
  c == ' ' || c == '\t' || c == '\n' || c == '\r' ||
  c == Char.ofNat 11 || c == Char.ofNat 12

/-- Python `str.lower`, restricted to the character repertoire this program
compares: ASCII letters plus the accented capitals of the French phrases. -/
def pyLowerChar (c : Char) : Char :=
  if 'A' ≤ c ∧ c ≤ 'Z' then Char.ofNat (c.toNat + 32)
  else if c = 'É' then 'é'
  else if c = 'È' then 'è'
  else if c = 'À' then 'à'
  else if c = 'Ç' then 'ç'
  else if c = 'Ô' then 'ô'
  else c

/-- Python `str.lower` on a whole string. -/
def pyLower (s : String) : String :=
  String.mk (s.data.map pyLowerChar)

/-- Value of a run of decimal digits (the digits already validated). -/
def digitsToNat (l : List Char) : ℕ :=
  l.foldl (fun a c => 10 * a + (c.toNat - 48)) 0

/-- Python `pat in s` substring test on char lists. -/
def infixCheck (p : List Char) : List Char → Bool
  | [] => p.isEmpty
  | c :: tl => List.isPrefixOf p (c :: tl) || infixCheck p tl

/-- Python `pat in s` substring test on strings. -/
def isSubstr (pat s : String) : Bool :=
  infixCheck pat.data s.data

/-- Python `str.strip()`: drop whitespace from both ends. -/
def stripWs (l : List Char) : List Char :=
  ((l.dropWhile isWs).reverse.dropWhile isWs).reverse

/-- `re.sub(r'\s+', ' ', s)`: every maximal whitespace run becomes one
space.  The boolean flag records whether the previous character was
whitespace (i.e. we are inside a run already replaced). -/
def collapseWsAux : Bool → List Char → List Char
  | _, [] => []
  | prevWs, c :: cs =>
    if isWs c then
      if prevWs then collapseWsAux true cs
      else ' ' :: collapseWsAux true cs
    else c :: collapseWsAux false cs

/-- `re.sub(r'\s+', ' ', name.strip())` as applied at source lines 132-133. -/
def normalizeName (s : String) : String :=
  String.mk (collapseWsAux false (stripWs s.data))

/-! ### Python `float()` on the cleaned numeric strings

After `clean_price` strips every character outside `[\d.,]` and maps `,` to
`.`, the string reaching `float()` consists of digits and periods only;
`float()` accepts it exactly when it has at least one digit and at most one
period.  The value is modelled exactly in ℚ. -/

def pyFloat (l : List Char) : Option ℚ :=
  if l.any (fun c => !(c.isDigit || c == '.')) then none
  else
    let intPart := l.takeWhile Char.isDigit
    let rest := l.drop intPart.length
    match rest with
    | [] => if intPart.isEmpty then none else some ((digitsToNat intPart : ℚ))
    | '.' :: frac =>
      if frac.any (fun c => !c.isDigit) then none
      else if intPart.isEmpty && frac.isEmpty then none
      else some ((digitsToNat intPart : ℚ) + (digitsToNat frac : ℚ) / (10 : ℚ) ^ frac.length)
    | _ => none

/-! ### Field Normalizers (source lines 34-71) -/

/-- `clean_price` (lines 34-44): keep `[\d.,]`, turn `,` into `.`, parse as
float, return it only if `> 0`. -/
def clean_price (price_str : String) : Option ℚ :=
  if price_str = "" then none
  else
    match pyFloat ((price_str.data.filter
        (fun c => c.isDigit || c == '.' || c == ',')).map
        (fun c => if c == ',' then '.' else c)) with
    | none => none
    | some val => if 0 < val then some val else none

/-- Anchored match of `(\d+\.?\d*)` at the head of `l` (greedy): the digit
run, plus `.` and a second digit run when the dot directly follows. -/
def ratingMatchAt (l : List Char) : Option (List Char) :=
  match l with
  | [] => none
  | c :: _ =>
    if c.isDigit then
      let ds := l.takeWhile Char.isDigit
      match l.drop ds.length with
      | '.' :: rest2 => some (ds ++ '.' :: rest2.takeWhile Char.isDigit)
      | _ => some ds
    else none

/-- `re.search(r'(\d+\.?\d*)', s)`: leftmost match. -/
def ratingSearch : List Char → Option (List Char)
  | [] => none
  | c :: cs =>
    match ratingMatchAt (c :: cs) with
    | some g => some g
    | none => ratingSearch cs

/-- `clean_rating` (lines 47-58): first decimal-looking number, kept only
when it lies within `[0, 5]`. -/
def clean_rating (rating_str : String) : Option ℚ :=
  if rating_str = "" then none
  else
    match ratingSearch rating_str.data with
    | none => none
    | some g =>
      match pyFloat g with
      | none => none
      | some val => if 0 ≤ val ∧ val ≤ 5 then some val else none

/-- `re.search(r'(\d+)', s)`: leftmost maximal digit run. -/
def digitSearch : List Char → Option (List Char)
  | [] => none
  | c :: cs =>
    if c.isDigit then some ((c :: cs).takeWhile Char.isDigit)
    else digitSearch cs

/-- `clean_review_count` (lines 61-71): first integer-looking number as a
Python `int` (arbitrary-precision signed, hence ℤ). -/
def clean_review_count (count_str : String) : Option ℤ :=
  if count_str = "" then none
  else
    match digitSearch count_str.data with
    | none => none
    | some ds => some ((digitsToNat ds : ℤ))

/-! ### The monetary-pattern regex (source lines 106 and 324)

`re.search(r'(\d+[\d\s,\.]*)\s*(TND|DT|د\.ت)', text)`.  An anchored
attempt at a position succeeds when that position holds a digit and the
pattern's tail can be completed; greedy matching makes group 1 the longest
viable extent.  Since none of the currency markers starts with a character
of the class `[\d\s,.]`, group 1 ranges inside the maximal class run at the
match position, and the `\s*` gap is explored by `tailMatches`. -/

def isPriceClass (c : Char) : Bool :=
  c.isDigit || isWs c || c == ',' || c == '.'

/-- The currency alternation `(TND|DT|د\.ت)` anchored at the head. -/
def currencyAt (l : List Char) : Bool :=
  List.isPrefixOf "TND".data l || List.isPrefixOf "DT".data l ||
  List.isPrefixOf "د.ت".data l

/-- After group 1, `\s*(TND|DT|د\.ت)`: some prefix of the whitespace run is
absorbed by `\s*` and the currency marker follows. -/
def tailMatches (rest : List Char) : Bool :=
  (List.range ((rest.takeWhile isWs).length + 1)).any
    (fun k => currencyAt (rest.drop k))

/-- Greedy search for the end of group 1: the largest `g ≥ 1` within the
class run such that the pattern tail matches after `g` characters. -/
def bestG (l : List Char) : ℕ → Option ℕ
  | 0 => none
  | g + 1 =>
    if tailMatches (l.drop (g + 1)) then some (g + 1) else bestG l g

/-- Anchored attempt of the monetary pattern at the head of `l`, returning
group 1 on success. -/
def priceMatchAt (l : List Char) : Option (List Char) :=
  match l with
  | [] => none
  | c :: _ =>
    if c.isDigit then
      match bestG l ((l.takeWhile isPriceClass).length) with
      | some g => some (l.take g)
      | none => none
    else none

/-- `re.search`: leftmost anchored success. -/
def priceSearch : List Char → Option (List Char)
  | [] => none
  | c :: cs =>
    match priceMatchAt (c :: cs) with
    | some g => some g
    | none => priceSearch cs

/-! ### The review-count regex (source lines 155 and 373)

`re.search(r'(\d+)\s*(avis|reviews|commentaires)', text, re.I)`.  The
keywords start with letters, so after the greedy digit run the keyword can
only match at the end of the whitespace run. -/

/-- Case-insensitive anchored keyword comparison. -/
def matchesKeyword (kw : List Char) : List Char → Bool
  | l =>
    match kw, l with
    | [], _ => true
    | _ :: _, [] => false
    | k :: ks, c :: cs => (pyLowerChar c == k) && matchesKeyword ks cs

/-- `(avis|reviews|commentaires)` anchored at the head, case-insensitive. -/
def keywordAt (l : List Char) : Bool :=
  matchesKeyword "avis".data l || matchesKeyword "reviews".data l ||
  matchesKeyword "commentaires".data l

/-- Anchored attempt of the review pattern, returning group 1 (digit run). -/
def reviewMatchAt (l : List Char) : Option (List Char) :=
  match l with
  | [] => none
  | c :: _ =>
    if c.isDigit then
      let ds := l.takeWhile Char.isDigit
      if keywordAt ((l.drop ds.length).dropWhile isWs) then some ds else none
    else none

/-- Leftmost match of the review pattern. -/
def reviewSearch : List Char → Option (List Char)
  | [] => none
  | c :: cs =>
    match reviewMatchAt (c :: cs) with
    | some g => some g
    | none => reviewSearch cs

/-! ### The bare-percentage name gate (source lines 142 and 360)

`re.match(r'^-?\d+%$', name)`: an optional minus, a digit run, `%`, end. -/

def digitsPercent (l : List Char) : Bool :=
  let ds := l.takeWhile Char.isDigit
  !ds.isEmpty && (l.drop ds.length == ['%'])

def isPercentName (l : List Char) : Bool :=
  match l with
  | '-' :: rest => digitsPercent rest
  | _ => digitsPercent l

/-! ### DOM model

One scanned `<div>` is modelled by the results of the BeautifulSoup
queries the extractor performs on it. -/

/-- An `<a>` element (candidate link tag) inside a block. -/
structure ATag where
  /-- The tag's attributes (`link_tag['href']` is a lookup here). -/
  attrs : List (String × String)
  /-- `link_tag.text`. -/
  innerText : String
  /-- Text of `link_tag.find(['span', 'h3', 'h2'])`, when such a
  descendant exists. -/
  nestedSpanH : Option String
deriving DecidableEq

/-- One candidate `<div>` block. -/
structure Block where
  /-- `div.get_text()`: the flattened text. -/
  text : String
  /-- Text of `div.find(['h3', 'h2', 'strong'])`, when present. -/
  headingText : Option String
  /-- The `<a>` descendants in document order. -/
  aTags : List ATag
  /-- Text of `div.find(['span', 'div'], class_=re.compile('rating|note|star|avis', re.I))`,
  when present. -/
  ratingText : Option String
deriving DecidableEq

/-- `div.find('a', href=True)`: the first `<a>` carrying an `href`. -/
def findA (b : Block) : Option ATag :=
  b.aTags.find? (fun t => (List.lookup "href" t.attrs).isSome)

/-- The name-derivation cascade (source lines 126-132): block-level
heading/strong element, else a span/heading nested in the link tag, else
the link tag's own text. -/
def deriveNameText (b : Block) (lt : ATag) : String :=
  match b.headingText with
  | some t => t
  | none =>
    match lt.nestedSpanH with
    | some t => t
    | none => lt.innerText

/-- `urllib.parse.urljoin`, simplified to the cases this development
exercises: an absolute `href` wins, a root-relative one is appended to the
base, anything else is joined with a slash.  No claim depends on finer
RFC 3986 behaviour. -/
def urljoin (base href : String) : String :=
  if List.isPrefixOf "http://".data href.data ||
     List.isPrefixOf "https://".data href.data then href
  else if List.isPrefixOf "/".data href.data then base ++ href
  else base ++ "/" ++ href

/-! ### Gates and denylists -/

/-- Line 111: `if len(text) < 20 or len(text) > 1500: continue`. -/
def lengthReject (t : String) : Bool :=
  decide (t.length < 20) || decide (t.length > 1500)

/-- Line 136: `if len(name) < 5 or len(name) > 250: continue`. -/
def nameLenReject (name : String) : Bool :=
  decide (name.length < 5) || decide (name.length > 250)

/-- Line 122: the non-product-link substring denylist of
`scrape_site_extended`. -/
def extendedLinkDeny : List String :=
  ["#", "javascript", "store/", "add-to-cart", "categorie"]

/-- Line 340: the non-product-link substring denylist of `scrape_mytek`. -/
def mytekLinkDeny : List String :=
  ["#", "javascript", "categorie"]

/-- `any(x in link.lower() for x in deny)`. -/
def linkRejected (deny : List String) (link : String) : Bool :=
  deny.any (fun x => isSubstr x (pyLower link))

/-- Lines 139 and 357: the UI-chrome phrase denylist for derived names. -/
def nameDenylist : List String :=
  ["ajouter au panier", "vendu par :", "compare", "liste de souhaits",
   "demander un devis", "effacer les filtres", "bon plan", "newsletter",
   "satisfait ou remboursé", "gratuite en 48h à partir de 300dt",
   "jeux de construction", "loisirs créatifs"]

/-! ### The Record Extractor -/

/-- The output record (the Python dict of lines 158-167 / 376-385). -/
structure ProductRecord where
  nom : String
  prix : ℚ
  categorie : String
  note : Option ℚ
  nbAvis : Option ℤ
  enStock : String
  lien : String
  site : String
deriving DecidableEq

/-- Lines 155-156: review count from the leftmost review-pattern match. -/
def reviewCountOf (b : Block) : Option ℤ :=
  match reviewSearch b.text.data with
  | some ds => clean_review_count (String.mk ds)
  | none => none

/-- The per-block body (source lines 102-172, identically 320-390 for
Mytek up to the denylist and constants), in `Except`: the steps that can
raise in Python — here the `link_tag['href']` subscript — surface as
`Except.error`, to be caught by the page-scan loop's `except: continue`.
`Except.ok none` is a silent skip (`continue`), `Except.ok (some r)` an
extracted record. -/
def extractBlockE (deny : List String) (base site cat : String) (b : Block) :
    Except String (Option ProductRecord) :=
  match priceSearch b.text.data with
  | none => Except.ok none
  | some group1 =>
    if lengthReject b.text then Except.ok none
    else
      match findA b with
      | none => Except.ok none
      | some linkTag =>
        match List.lookup "href" linkTag.attrs with
        | none => Except.error "KeyError: href"
        | some href =>
          if linkRejected deny (urljoin base href) then Except.ok none
          else
            if nameLenReject (normalizeName (deriveNameText b linkTag)) then
              Except.ok none
            else if nameDenylist.contains
                (pyLower (normalizeName (deriveNameText b linkTag))) then
              Except.ok none
            else if isPercentName (normalizeName (deriveNameText b linkTag)).data then
              Except.ok none
            else
              match clean_price (String.mk group1) with
              | none => Except.ok none
              | some price =>
                if price = 0 ∨ price > 100000 ∨ price < 1 then Except.ok none
                else
                  Except.ok (some
                    { nom := normalizeName (deriveNameText b linkTag)
                      prix := price
                      categorie := cat
                      note := clean_rating (Option.getD b.ratingText "")
                      nbAvis := reviewCountOf b
                      enStock := "Oui"
                      lien := urljoin base href
                      site := site })

/-- The per-block outcome as the loop sees it: an exception is caught and
the block is skipped. -/
def extractBlock (deny : List String) (base site cat : String) (b : Block) :
    Option ProductRecord :=
  match extractBlockE deny base site cat b with
  | Except.ok r => r
  | Except.error _ => none

/-- The page-scan loop (lines 101-175) over the candidate blocks of one
page, threading the per-site accumulation list with its page-local
dedup-by-link append (lines 170-171).  The loop runs in `Except` but
catches every per-block error (`except Exception: continue`). -/
def pageScanE (deny : List String) (base site cat : String)
    (acc : List ProductRecord) : List Block → Except String (List ProductRecord)
  | [] => Except.ok acc
  | b :: bs =>
    match extractBlockE deny base site cat b with
    | Except.error _ => pageScanE deny base site cat acc bs
    | Except.ok none => pageScanE deny base site cat acc bs
    | Except.ok (some r) =>
      pageScanE deny base site cat
        (if acc.any (fun p => p.lien == r.lien) then acc else acc ++ [r]) bs

/-- The page scan as a plain record list (the error branch is unreachable;
it returns the untouched accumulation list). -/
def pageScan (deny : List String) (base site cat : String)
    (acc : List ProductRecord) (bs : List Block) : List ProductRecord :=
  match pageScanE deny base site cat acc bs with
  | Except.ok l => l
  | Except.error _ => acc

/-! ### The global Deduplicator (source lines 472-478) -/

/-- The dedup loop of `main`, threading the `seen` set of links. -/
def dedupAux : List ProductRecord → List String → List ProductRecord
  | [], _ => []
  | p :: ps, seen =>
    if p.lien ∈ seen then dedupAux ps seen
    else p :: dedupAux ps (p.lien :: seen)

/-- The global Deduplicator: first occurrence of each `Lien` survives. -/
def dedupByLien (l : List ProductRecord) : List ProductRecord :=
  dedupAux l []

/-! ### Helper lemmas -/

/-- `re.search` leftmost semantics: a result of `priceSearch` is the anchored
match at the first position admitting one. -/
theorem priceSearch_leftmost {l g : List Char} (h : priceSearch l = some g) :
    ∃ i, priceMatchAt (l.drop i) = some g ∧
      ∀ j < i, priceMatchAt (l.drop j) = none := by
  induction l with
  | nil => simp [priceSearch] at h
  | cons c cs ih =>
    rw [priceSearch] at h
    cases hm : priceMatchAt (c :: cs) with
    | some g' =>
      rw [hm] at h
      refine ⟨0, ?_, ?_⟩
      · simpa [hm] using h
      · intro j hj
        exact absurd hj (Nat.not_lt_zero j)
    | none =>
      rw [hm] at h
      obtain ⟨i, h1, h2⟩ := ih h
      refine ⟨i + 1, by simpa using h1, ?_⟩
      intro j hj
      cases j with
      | zero => simpa using hm
      | succ j' => simpa using h2 j' (by omega)

theorem dedupAux_sublist : ∀ (l : List ProductRecord) (seen : List String),
    (dedupAux l seen).Sublist l
  | [], _ => by simp [dedupAux]
  | p :: ps, seen => by
    rw [dedupAux]
    split
    · exact (dedupAux_sublist ps seen).cons p
    · exact (dedupAux_sublist ps (p.lien :: seen)).cons₂ p

theorem dedupAux_not_seen : ∀ (l : List ProductRecord) (seen : List String)
    (q : ProductRecord), q ∈ dedupAux l seen → q.lien ∉ seen
  | [], _, q => by simp [dedupAux]
  | p :: ps, seen, q => by
    rw [dedupAux]
    split
    · exact dedupAux_not_seen ps seen q
    · intro hq
      rcases List.mem_cons.mp hq with rfl | hq'
      · assumption
      · have := dedupAux_not_seen ps (p.lien :: seen) q hq'
        exact fun hs => this (List.mem_cons_of_mem _ hs)

theorem dedupAux_pairwise : ∀ (l : List ProductRecord) (seen : List String),
    (dedupAux l seen).Pairwise (fun p q => p.lien ≠ q.lien)
  | [], _ => by simp [dedupAux]
  | p :: ps, seen => by
    rw [dedupAux]
    split
    · exact dedupAux_pairwise ps seen
    · refine List.Pairwise.cons ?_ (dedupAux_pairwise ps (p.lien :: seen))
      intro q hq
      have := dedupAux_not_seen ps (p.lien :: seen) q hq
      exact fun he => this (he ▸ List.mem_cons_self _ _)

theorem dedupAux_mem_lien : ∀ (l : List ProductRecord) (seen : List String)
    (p : ProductRecord), p ∈ l →
    p.lien ∈ seen ∨ ∃ q ∈ dedupAux l seen, q.lien = p.lien
  | [], _, p => by simp
  | p' :: ps, seen, p => by
    intro hp
    rw [dedupAux]
    rcases List.mem_cons.mp hp with rfl | hp'
    · split
      · exact Or.inl (by assumption)
      · exact Or.inr ⟨p, List.mem_cons_self _ _, rfl⟩
    · split
      · next hseen =>
        rcases dedupAux_mem_lien ps seen p hp' with h | ⟨q, hq, he⟩
        · exact Or.inl h
        · exact Or.inr ⟨q, hq, he⟩
      · next hseen =>
        rcases dedupAux_mem_lien ps (p'.lien :: seen) p hp' with h | ⟨q, hq, he⟩
        · rcases List.mem_cons.mp h with he' | hs
          · exact Or.inr ⟨p', List.mem_cons_self _ _, he'.symm⟩
          · exact Or.inl hs
        · exact Or.inr ⟨q, List.mem_cons_of_mem _ hq, he⟩

theorem dedupAux_find : ∀ (l : List ProductRecord) (seen : List String)
    (q : ProductRecord), q ∈ dedupAux l seen →
    l.find? (fun p => p.lien == q.lien) = some q
  | [], _, q => by simp [dedupAux]
  | p :: ps, seen, q => by
    intro hq
    rw [dedupAux] at hq
    by_cases hseen : p.lien ∈ seen
    · rw [if_pos hseen] at hq
      have hne : q.lien ∉ seen := dedupAux_not_seen ps seen q hq
      have hpq : (p.lien == q.lien) = false := by
        rw [beq_eq_false_iff_ne]
        intro he
        exact hne (he ▸ hseen)
      rw [List.find?_cons, hpq]
      exact dedupAux_find ps seen q hq
    · rw [if_neg hseen] at hq
      rcases List.mem_cons.mp hq with rfl | hq'
      · rw [List.find?_cons]
        simp
      · have hne : q.lien ∉ p.lien :: seen :=
          dedupAux_not_seen ps (p.lien :: seen) q hq'
        have hpq : (p.lien == q.lien) = false := by
          rw [beq_eq_false_iff_ne]
          intro he
          exact hne (he ▸ List.mem_cons_self _ _)
        rw [List.find?_cons, hpq]
        exact dedupAux_find ps (p.lien :: seen) q hq'

theorem dedupAux_fixed : ∀ (l : List ProductRecord) (seen : List String),
    l.Pairwise (fun p q => p.lien ≠ q.lien) → (∀ p ∈ l, p.lien ∉ seen) →
    dedupAux l seen = l
  | [], _, _, _ => rfl
  | p :: ps, seen, hpw, hni => by
    rw [dedupAux, if_neg (hni p (List.mem_cons_self _ _))]
    rw [List.pairwise_cons] at hpw
    refine congrArg (p :: ·) (dedupAux_fixed ps (p.lien :: seen) hpw.2 ?_)
    intro q hq hmem
    rcases List.mem_cons.mp hmem with he | hs
    · exact hpw.1 q hq he.symm
    · exact hni q (List.mem_cons_of_mem _ hq) hs

/-- A caught per-block outcome of `some r` means the uncaught body returned
`Except.ok (some r)`. -/
theorem extractBlock_eq_some {deny : List String} {base site cat : String}
    {b : Block} {r : ProductRecord}
    (h : extractBlock deny base site cat b = some r) :
    extractBlockE deny base site cat b = Except.ok (some r) := by
  unfold extractBlock at h
  split at h
  · next o heq => rw [heq, h]
  · exact absurd h (by simp)

/-- Inversion of a successful per-block extraction: every gate of the
Candidate Filter passed, and the record is exactly the one assembled at
source lines 158-167. -/
theorem extractBlockE_ok_some {deny : List String} {base site cat : String}
    {b : Block} {r : ProductRecord}
    (h : extractBlockE deny base site cat b = Except.ok (some r)) :
    ∃ lt href g1 v,
      priceSearch b.text.data = some g1 ∧
      lengthReject b.text = false ∧
      findA b = some lt ∧
      List.lookup "href" lt.attrs = some href ∧
      linkRejected deny (urljoin base href) = false ∧
      nameLenReject (normalizeName (deriveNameText b lt)) = false ∧
      nameDenylist.contains (pyLower (normalizeName (deriveNameText b lt))) = false ∧
      isPercentName (normalizeName (deriveNameText b lt)).data = false ∧
      clean_price (String.mk g1) = some v ∧
      ¬(v = 0 ∨ v > 100000 ∨ v < 1) ∧
      r = { nom := normalizeName (deriveNameText b lt)
            prix := v
            categorie := cat
            note := clean_rating (Option.getD b.ratingText "")
            nbAvis := reviewCountOf b
            enStock := "Oui"
            lien := urljoin base href
            site := site } := by
  unfold extractBlockE at h
  split at h
  · exact absurd h (by simp)
  next g1 hps =>
    split at h
    · exact absurd h (by simp)
    next hlen =>
      split at h
      · exact absurd h (by simp)
      next lt hA =>
        split at h
        · exact absurd h (by simp)
        next href hhref =>
          split at h
          · exact absurd h (by simp)
          next hlink =>
            split at h
            · exact absurd h (by simp)
            next hnlen =>
              split at h
              · exact absurd h (by simp)
              next hdeny =>
                split at h
                · exact absurd h (by simp)
                next hpct =>
                  split at h
                  · exact absurd h (by simp)
                  next v hcp =>
                    split at h
                    · exact absurd h (by simp)
                    next hrange =>
                      simp only [Except.ok.injEq, Option.some.injEq] at h
                      exact ⟨lt, href, g1, v, hps, by simpa using hlen, hA, hhref,
                        by simpa using hlink, by simpa using hnlen,
                        by simpa using hdeny, by simpa using hpct, hcp, hrange,
                        h.symm⟩

/-- The page scan never surfaces an error (the per-block catch absorbs
everything) and each block contributes at most one record. -/
theorem pageScanE_ok (deny : List String) (base site cat : String)
    (acc : List ProductRecord) (bs : List Block) :
    ∃ l : List ProductRecord,
      pageScanE deny base site cat acc bs = Except.ok l ∧
      l.length ≤ acc.length + bs.length := by
  induction bs generalizing acc with
  | nil => exact ⟨acc, rfl, by simp⟩
  | cons b bs ih =>
    rw [pageScanE]
    cases hE : extractBlockE deny base site cat b with
    | error e =>
      obtain ⟨l, hl, hlen⟩ := ih acc
      exact ⟨l, hl, by simp only [List.length_cons]; omega⟩
    | ok o =>
      cases o with
      | none =>
        obtain ⟨l, hl, hlen⟩ := ih acc
        exact ⟨l, hl, by simp only [List.length_cons]; omega⟩
      | some r =>
        obtain ⟨l, hl, hlen⟩ :=
          ih (if acc.any (fun p => p.lien == r.lien) then acc else acc ++ [r])
        refine ⟨l, hl, ?_⟩
        have hacc : (if acc.any (fun p => p.lien == r.lien) then acc
            else acc ++ [r]).length ≤ acc.length + 1 := by
          split <;> simp
        simp only [List.length_cons]
        omega

/-- Every record the page scan adds on top of the accumulation list carries
`enStock = "Oui"`. -/
theorem pageScanE_enStock (deny : List String) (base site cat : String) :
    ∀ (bs : List Block) (acc l : List ProductRecord),
      pageScanE deny base site cat acc bs = Except.ok l →
      ∀ r ∈ l, r ∈ acc ∨ r.enStock = "Oui" := by
  intro bs
  induction bs with
  | nil =>
    intro acc l h r hr
    rw [pageScanE] at h
    cases h
    exact Or.inl hr
  | cons b bs ih =>
    intro acc l h r hr
    rw [pageScanE] at h
    cases hE : extractBlockE deny base site cat b with
    | error e =>
      rw [hE] at h
      exact ih acc l h r hr
    | ok o =>
      cases o with
      | none =>
        rw [hE] at h
        exact ih acc l h r hr
      | some rec =>
        rw [hE] at h
        rcases ih _ l h r hr with hmem | hok
        · by_cases hc : acc.any (fun p => p.lien == rec.lien)
          · rw [if_pos hc] at hmem
            exact Or.inl hmem
          · rw [if_neg hc] at hmem
            rcases List.mem_append.mp hmem with hmem' | hone
            · exact Or.inl hmem'
            · obtain ⟨_, _, _, _, _, _, _, _, _, _, _, _, _, _, hrec⟩ :=
                extractBlockE_ok_some hE
              rw [List.mem_singleton.mp hone, hrec]
              -- the assembled record literally sets `enStock := "Oui"`
              exact Or.inr rfl
        · exact Or.inr hok

/-! ### Claims -/

/-- Claim C1: for every record list the global Deduplicator returns a list
with no two records of equal link, in which every link of the input is
represented, whose entry for each link is the input's first record with
that link, and whose records keep their original relative order (the
output is a sublist of the input). -/
theorem C1_dedup_first_occurrence (L : List ProductRecord) :
    (dedupByLien L).Pairwise (fun p q => p.lien ≠ q.lien) ∧
    (∀ p ∈ L, ∃ q ∈ dedupByLien L, q.lien = p.lien) ∧
    (∀ q ∈ dedupByLien L, L.find? (fun p => p.lien == q.lien) = some q) ∧
    (dedupByLien L).Sublist L := by
  refine ⟨dedupAux_pairwise L [], ?_, ?_, dedupAux_sublist L []⟩
  · intro p hp
    rcases dedupAux_mem_lien L [] p hp with h | h
    · simp at h
    · exact h
  · intro q hq
    exact dedupAux_find L [] q hq

/-- Concrete instance of C1: of two records sharing the link `l1`, the
survivor found for that link is the first one. -/
theorem C1_witness :
    List.find?
      (fun p : ProductRecord => p.lien == ProductRecord.lien
        { nom := "Produit un", prix := 2, categorie := "c", note := none,
          nbAvis := none, enStock := "Oui", lien := "l1", site := "s" })
      [{ nom := "Produit un", prix := 2, categorie := "c", note := none,
         nbAvis := none, enStock := "Oui", lien := "l1", site := "s" },
       { nom := "Produit deux", prix := 3, categorie := "c", note := none,
         nbAvis := none, enStock := "Oui", lien := "l1", site := "s" }] =
      some { nom := "Produit un", prix := 2, categorie := "c", note := none,
             nbAvis := none, enStock := "Oui", lien := "l1", site := "s" } :=
  (C1_dedup_first_occurrence
      [{ nom := "Produit un", prix := 2, categorie := "c", note := none,
         nbAvis := none, enStock := "Oui", lien := "l1", site := "s" },
       { nom := "Produit deux", prix := 3, categorie := "c", note := none,
         nbAvis := none, enStock := "Oui", lien := "l1", site := "s" }]).2.2.1
    { nom := "Produit un", prix := 2, categorie := "c", note := none,
      nbAvis := none, enStock := "Oui", lien := "l1", site := "s" }
    (by decide)

/-- Claim C7: the global Deduplicator is idempotent — its output is a fixed
point. -/
theorem C7_dedup_idempotent (L : List ProductRecord) :
    dedupByLien (dedupByLien L) = dedupByLien L :=
  dedupAux_fixed (dedupByLien L) [] (dedupAux_pairwise L []) (by simp)

/-- Claim C3: `clean_price` returns `None` or a value strictly greater than
0, `clean_rating` returns `None` or a value in `[0, 5]`, and
`clean_review_count` returns `None` or a non-negative integer; each is a
total function by construction. -/
theorem C3_normalizer_ranges (t : String) :
    (∀ v : ℚ, clean_price t = some v → 0 < v) ∧
    (∀ v : ℚ, clean_rating t = some v → 0 ≤ v ∧ v ≤ 5) ∧
    (∀ n : ℤ, clean_review_count t = some n → 0 ≤ n) := by
  refine ⟨?_, ?_, ?_⟩
  · intro v hv
    unfold clean_price at hv
    split at hv
    · exact absurd hv (by simp)
    · split at hv
      · exact absurd hv (by simp)
      · split at hv
        · next hpos =>
          cases hv
          assumption
        · exact absurd hv (by simp)
  · intro v hv
    unfold clean_rating at hv
    split at hv
    · exact absurd hv (by simp)
    · split at hv
      · exact absurd hv (by simp)
      · split at hv
        · exact absurd hv (by simp)
        · split at hv
          · next hrange =>
            cases hv
            assumption
          · exact absurd hv (by simp)
  · intro n hn
    unfold clean_review_count at hn
    split at hn
    · exact absurd hn (by simp)
    · split at hn
      · exact absurd hn (by simp)
      · cases hn
        exact Int.natCast_nonneg _

/-- Concrete instance of C3 at input `"4"`: all three normalizers succeed
within their ranges. -/
theorem C3_witness :
    (0 : ℚ) < 4 ∧ ((0 : ℚ) ≤ 4 ∧ (4 : ℚ) ≤ 5) ∧ (0 : ℤ) ≤ 4 :=
  ⟨(C3_normalizer_ranges "4").1 4 (by decide),
   (C3_normalizer_ranges "4").2.1 4 (by decide),
   (C3_normalizer_ranges "4").2.2 4 (by decide)⟩

/-- Claim C4: the flattened-text length gate uses inclusive bounds — it
passes exactly the lengths in `[20, 1500]`, so 20 and 1500 pass while 19
and 1501 are rejected. -/
theorem C4_length_gate (t : String) :
    lengthReject t = false ↔ 20 ≤ t.length ∧ t.length ≤ 1500 := by
  unfold lengthReject
  simp only [Bool.or_eq_false_iff, decide_eq_false_iff_not, not_lt]

/-- Concrete instance of C4: a 20-character text passes the length gate. -/
theorem C4_witness : lengthReject "12345678901234567890" = false :=
  (C4_length_gate "12345678901234567890").mpr (by decide)

/-- Candidate block whose monetary substring parses to exactly 1: the
flattened text has 26 characters, a valid heading-derived name, and a
valid product link. -/
def blockC2 : Block :=
  { text := "Produit Alpha Beta 1 TND x"
    headingText := some "Produit Alpha Beta"
    aTags := [{ attrs := [("href", "https://x.tn/p/alpha")],
                innerText := "Produit Alpha Beta", nestedSpanH := none }]
    ratingText := none }

/-- Claim C2 counterexample: the claim requires a derived price of exactly
1 to be rejected, but the source gate `price < 1` lets it through — this
block is accepted and its record has price exactly 1. -/
theorem C2_counterexample :
    (extractBlock extendedLinkDeny "https://x.tn" "S" "C" blockC2).map
      ProductRecord.prix = some 1 := by
  decide

/-- Claim C2 (amended): the price gate accepts exactly the derived prices
in the closed interval `[1, 100000]` — a failed parse, a price below 1, or
a price above 100000 is rejected, and a price of exactly 1 is accepted. -/
theorem C2_amended_price_gate (deny : List String) (base site cat : String)
    (b : Block) (r : ProductRecord)
    (h : extractBlock deny base site cat b = some r) :
    1 ≤ r.prix ∧ r.prix ≤ 100000 := by
  obtain ⟨lt, href, g1, v, _, _, _, _, _, _, _, _, _, hrange, hr⟩ :=
    extractBlockE_ok_some (extractBlock_eq_some h)
  subst hr
  push_neg at hrange
  exact ⟨hrange.2.2, hrange.2.1⟩

/-- Concrete instance of the amended C2 at `blockC2`, whose accepted record
has price exactly 1. -/
theorem C2_amended_witness : 1 ≤ (1 : ℚ) ∧ (1 : ℚ) ≤ 100000 := by
  have h := C2_amended_price_gate extendedLinkDeny "https://x.tn" "S" "C" blockC2
    { nom := "Produit Alpha Beta", prix := 1, categorie := "C", note := none,
      nbAvis := none, enStock := "Oui", lien := "https://x.tn/p/alpha",
      site := "S" }
    (by decide)
  exact h

/-- Claim C5: whenever the name the cascade would derive for the block's
found link tag is (after normalization and lowercasing) one of the
denylisted UI-chrome phrases, the block yields no record — whatever its
price and link. -/
theorem C5_name_denylist (deny : List String) (base site cat : String)
    (b : Block)
    (h : Option.all
        (fun lt => nameDenylist.contains (pyLower (normalizeName (deriveNameText b lt))))
        (findA b) = true) :
    extractBlock deny base site cat b = none := by
  cases hE : extractBlock deny base site cat b with
  | none => rfl
  | some r =>
    obtain ⟨lt, href, g1, v, _, _, hA, _, _, _, hdeny, _, _, _, _⟩ :=
      extractBlockE_ok_some (extractBlock_eq_some hE)
    rw [hA] at h
    simp only [Option.all_some] at h
    rw [hdeny] at h
    exact absurd h (by simp)

/-- Candidate block whose derived name is the denylisted phrase
`Ajouter au panier`, despite a valid price (15) and a valid link. -/
def blockC5 : Block :=
  { text := "Ajouter au panier 15 TND xx"
    headingText := some "Ajouter au panier"
    aTags := [{ attrs := [("href", "https://x.tn/prod/un")],
                innerText := "Ajouter au panier", nestedSpanH := none }]
    ratingText := none }

/-- Concrete instance of C5: `blockC5` is rejected. -/
theorem C5_witness :
    extractBlock extendedLinkDeny "https://x.tn" "S" "C" blockC5 = none :=
  C5_name_denylist extendedLinkDeny "https://x.tn" "S" "C" blockC5 (by decide)

/-- Candidate block whose link resolves under the Mytek base to a URL
containing the substring `store/`. -/
def blockC6 : Block :=
  { text := "Produit Store Gamma 25 TND ok!!"
    headingText := some "Produit Store Gamma"
    aTags := [{ attrs := [("href", "https://www.mytek.tn/store/produit-gamma")],
                innerText := "Produit Store Gamma", nestedSpanH := none }]
    ratingText := none }

/-- Claim C6 counterexample: the extraction paths do not share a single
fixed link denylist — `scrape_mytek` omits `store/` and `add-to-cart` —
and the Mytek path emits a record whose link contains `store/`, a
substring denylisted in the other path. -/
theorem C6_counterexample :
    extendedLinkDeny ≠ mytekLinkDeny ∧
    "store/" ∈ extendedLinkDeny ∧
    (extractBlock mytekLinkDeny "https://www.mytek.tn" "Mytek" "Informatique"
        blockC6).map ProductRecord.lien =
      some "https://www.mytek.tn/store/produit-gamma" ∧
    isSubstr "store/" (pyLower "https://www.mytek.tn/store/produit-gamma") = true := by
  refine ⟨by decide, by decide, by decide, by decide⟩

/-- Claim C6 (amended): each extraction path applies its own fixed
substring denylist — five patterns in `scrape_site_extended`, three in
`scrape_mytek` — and a record emitted under a given denylist has a link
containing none of that denylist's substrings. -/
theorem C6_amended_per_path_denylist (deny : List String)
    (base site cat : String) (b : Block) (r : ProductRecord)
    (h : extractBlock deny base site cat b = some r) :
    ∀ x ∈ deny, isSubstr x (pyLower r.lien) = false := by
  obtain ⟨lt, href, g1, v, _, _, _, _, hlink, _, _, _, _, _, hr⟩ :=
    extractBlockE_ok_some (extractBlock_eq_some h)
  subst hr
  intro x hx
  unfold linkRejected at hlink
  rw [List.any_eq_false] at hlink
  have := hlink x hx
  show isSubstr x (pyLower (urljoin base href)) = false
  revert this
  cases isSubstr x (pyLower (urljoin base href)) <;> simp

/-- Concrete instance of the amended C6: the Mytek record of `blockC6`
contains no substring of the Mytek denylist. -/
theorem C6_amended_witness :
    isSubstr "#" (pyLower "https://www.mytek.tn/store/produit-gamma") = false :=
  C6_amended_per_path_denylist mytekLinkDeny "https://www.mytek.tn" "Mytek"
    "Informatique" blockC6
    { nom := "Produit Store Gamma", prix := 25, categorie := "Informatique",
      note := none, nbAvis := none, enStock := "Oui",
      lien := "https://www.mytek.tn/store/produit-gamma", site := "Mytek" }
    (by decide) "#" (by decide)

/-- Claim C8: the extraction core is total — for every input block list
(any markup, including empty or malformed), the page scan returns a record
list and never an error: each per-block failure is caught inside the loop
and the block contributes at most one record. -/
theorem C8_core_total (deny : List String) (base site cat : String)
    (acc : List ProductRecord) (bs : List Block) :
    ∃ l : List ProductRecord,
      pageScanE deny base site cat acc bs = Except.ok l ∧
      l.length ≤ acc.length + bs.length :=
  pageScanE_ok deny base site cat acc bs

/-- Claim C9: every record emitted by the Record Extractor has its in-stock
flag set to `'Oui'` — availability defaults to true and no path produces an
out-of-stock record. -/
theorem C9_in_stock (deny : List String) (base site cat : String)
    (bs : List Block) (r : ProductRecord)
    (h : r ∈ pageScan deny base site cat [] bs) : r.enStock = "Oui" := by
  unfold pageScan at h
  cases hE : pageScanE deny base site cat [] bs with
  | error e =>
    rw [hE] at h
    simp at h
  | ok l =>
    rw [hE] at h
    rcases pageScanE_enStock deny base site cat bs [] l hE r h with habs | hok
    · simp at habs
    · exact hok

/-- Candidate block for the C9 witness: a well-formed product listing. -/
def blockC9 : Block :=
  { text := "Machine a laver beta 420 TND promo"
    headingText := some "Machine a laver beta"
    aTags := [{ attrs := [("href", "https://d.tn/p/machine-beta")],
                innerText := "Machine a laver beta", nestedSpanH := none }]
    ratingText := none }

/-- Concrete instance of C9: the record scanned from `blockC9` is marked
in stock. -/
theorem C9_witness :
    ProductRecord.enStock
      { nom := "Machine a laver beta", prix := 420, categorie := "Électroménager",
        note := none, nbAvis := none, enStock := "Oui",
        lien := "https://d.tn/p/machine-beta", site := "Darty" } = "Oui" :=
  C9_in_stock extendedLinkDeny "https://d.tn" "Darty" "Électroménager"
    [blockC9]
    { nom := "Machine a laver beta", prix := 420, categorie := "Électroménager",
      note := none, nbAvis := none, enStock := "Oui",
      lien := "https://d.tn/p/machine-beta", site := "Darty" }
    (by decide)

/-- Claim C10: the emitted price is derived from the textually first
monetary match of the flattened text — there is a position `i` where the
anchored monetary pattern matches with group `g`, no earlier position
admits a match, and the record's price is exactly the parse of `g`. -/
theorem C10_first_match_price (deny : List String) (base site cat : String)
    (b : Block) (r : ProductRecord)
    (h : extractBlock deny base site cat b = some r) :
    ∃ (i : ℕ) (g : List Char) (v : ℚ),
      priceMatchAt (b.text.data.drop i) = some g ∧
      (∀ j < i, priceMatchAt (b.text.data.drop j) = none) ∧
      clean_price (String.mk g) = some v ∧ r.prix = v := by
  obtain ⟨lt, href, g1, v, hps, _, _, _, _, _, _, _, hcp, _, hr⟩ :=
    extractBlockE_ok_some (extractBlock_eq_some h)
  obtain ⟨i, h1, h2⟩ := priceSearch_leftmost hps
  subst hr
  exact ⟨i, g1, v, h1, h2, hcp, rfl⟩

/-- Candidate block for the C10 witness: the flattened text carries two
monetary patterns, 7 TND first, 9 TND later; the emitted price is 7. -/
def blockC10 : Block :=
  { text := "Produit Delta 7 TND puis 9 TND fin"
    headingText := some "Produit Delta"
    aTags := [{ attrs := [("href", "https://x.tn/p/delta")],
                innerText := "Produit Delta", nestedSpanH := none }]
    ratingText := none }

/-- Concrete instance of C10 at `blockC10`, whose record has price 7 (the
first of the two monetary matches). -/
theorem C10_witness :
    ∃ (i : ℕ) (g : List Char) (v : ℚ),
      priceMatchAt (blockC10.text.data.drop i) = some g ∧
      (∀ j < i, priceMatchAt (blockC10.text.data.drop j) = none) ∧
      clean_price (String.mk g) = some v ∧
      ProductRecord.prix
        { nom := "Produit Delta", prix := 7, categorie := "C", note := none,
          nbAvis := none, enStock := "Oui", lien := "https://x.tn/p/delta",
          site := "S" } = v :=
  C10_first_match_price extendedLinkDeny "https://x.tn" "S" "C" blockC10
    { nom := "Produit Delta", prix := 7, categorie := "C", note := none,
      nbAvis := none, enStock := "Oui", lien := "https://x.tn/p/delta",
      site := "S" }
    (by decide)
